import Mathlib

/-!
Verification of the ad-performance reporting bot (`src/io_csv.py`, `src/metrics.py`,
`src/llm_hf.py`, `src/main.py`) against its natural-language specification.

Shallow embedding conventions:
* Calendar dates are modelled as `Int` ordinal day numbers (Python
  `datetime.date.toordinal`); ordinal 1 is a Monday, so Python's
  `date.weekday()` (Monday = 0 .. Sunday = 6) is `(d + 6) % 7`.
* Float measures are modelled as exact rationals `ℚ`.
* A CSV source is modelled by `CsvData`: absent file, zero-byte file (pandas
  `EmptyDataError`), or a header plus raw rows.  `pd.to_datetime(_, errors
  ="coerce")` / `pd.to_numeric(_, errors="coerce")` cell parsing is modelled by
  the raw cells already carrying the parse outcome (`Option Int` / `Option ℚ`);
  string cells carry the raw text, trimmed inside `load_csv` as the source does.
* `DataFrame.to_csv` persistence is modelled by returning the row list that is
  written; exceptions are modelled with `Except PipeError`.
-/

/-- One cleaned record of ad metrics: the 11 required CSV columns after
`load_csv` cleaning (`io_csv.py`, `REQUIRED_COLUMNS`). -/
structure Row where
  date : Int
  product_name : String
  campaign_name : String
  device : String
  keyword : String
  impressions : ℚ
  clicks : ℚ
  avg_cpc : ℚ
  cost : ℚ
  conversions : ℚ
  revenue : ℚ
deriving DecidableEq

/-- One raw CSV data row, as pandas reads it: the date cell together with the
result of `pd.to_datetime(_, errors="coerce")` (`none` = NaT, unparseable);
numeric cells with the result of `pd.to_numeric(_, errors="coerce")`
(`none` = NaN); string cells as raw text (not yet stripped). -/
structure RawRow where
  date : Option Int
  product_name : String
  campaign_name : String
  device : String
  keyword : String
  impressions : Option ℚ
  clicks : Option ℚ
  avg_cpc : Option ℚ
  cost : Option ℚ
  conversions : Option ℚ
  revenue : Option ℚ
deriving DecidableEq

/-- A CSV source on disk: missing file, existing zero-byte file (pandas raises
`EmptyDataError`), or a parsed table with its header column names and rows. -/
inductive CsvData where
  | missing : CsvData
  | emptyFile : CsvData
  | table (header : List String) (rows : List RawRow) : CsvData
deriving DecidableEq

/-- `Path.exists()` for a modelled CSV source. -/
def CsvData.fileExists : CsvData → Bool
  | .missing => false
  | _ => true

/-- The error taxonomy raised by the embedded pipeline: `FileNotFoundError`,
schema `ValueError`, the two empty-input `ValueError`s, and the
no-prior-date `ValueError` of `compute_latest_daily_deltas`. -/
inductive PipeError where
  | missingFile : PipeError
  | schemaError : PipeError
  | emptyBatch : PipeError
  | emptyToday : PipeError
  | emptyHistory : PipeError
  | noPriorDate : PipeError
deriving DecidableEq

/-- `REQUIRED_COLUMNS` from `io_csv.py`. -/
def REQUIRED_COLUMNS : List String :=
  ["date", "product_name", "campaign_name", "device", "keyword",
   "impressions", "clicks", "avg_cpc", "cost", "conversions", "revenue"]

/-- Python `str.strip()`: remove leading and trailing whitespace. -/
def pyStrip (s : String) : String :=
  ⟨((s.data.dropWhile Char.isWhitespace).reverse.dropWhile Char.isWhitespace).reverse⟩

/-- Row-level cleaning of `load_csv`: a row whose date failed to parse is
dropped (`df[df["date"].notna()]`); numeric NaN becomes 0.0 (`fillna(0.0)`);
string columns are stripped. -/
def cleanRow (r : RawRow) : Option Row :=
  match r.date with
  | none => none
  | some d =>
      some
        { date := d
          product_name := pyStrip r.product_name
          campaign_name := pyStrip r.campaign_name
          device := pyStrip r.device
          keyword := pyStrip r.keyword
          impressions := r.impressions.getD 0
          clicks := r.clicks.getD 0
          avg_cpc := r.avg_cpc.getD 0
          cost := r.cost.getD 0
          conversions := r.conversions.getD 0
          revenue := r.revenue.getD 0 }

/-- `load_csv` from `io_csv.py`: missing file raises `FileNotFoundError`;
a zero-byte file yields an empty frame with the required columns; a header
missing any required column raises the schema `ValueError`; otherwise rows are
cleaned (an empty row set returns empty directly, which coincides with
cleaning no rows). -/
def load_csv : CsvData → Except PipeError (List Row)
  | .missing => .error .missingFile
  | .emptyFile => .ok []
  | .table header rows =>
      if ∀ c ∈ REQUIRED_COLUMNS, c ∈ header then
        .ok (rows.filterMap cleanRow)
      else
        .error .schemaError

/-- The lexicographic sort key of `upsert_history`'s
`sort_values(by=["date", "product_name", "campaign_name", "device", "keyword"])`. -/
abbrev RowKey : Type := Int ×ₗ String ×ₗ String ×ₗ String ×ₗ String

/-- The 5-tuple sort key of a row. -/
def rowKey (r : Row) : RowKey :=
  toLex (r.date, toLex (r.product_name, toLex (r.campaign_name, toLex (r.device, r.keyword))))

/-- Ascending order on rows by (date, product_name, campaign_name, device, keyword). -/
def keyLE (a b : Row) : Prop := rowKey a ≤ rowKey b

instance : DecidableRel keyLE := fun a b =>
  inferInstanceAs (Decidable (rowKey a ≤ rowKey b))

instance : IsTotal Row keyLE := ⟨fun a b => le_total (rowKey a) (rowKey b)⟩

instance : IsTrans Row keyLE := ⟨fun _ _ _ h₁ h₂ => le_trans h₁ h₂⟩

/-- `merged.sort_values(by=["date", "product_name", "campaign_name", "device",
"keyword"])`, modelled as a stable sort by the 5-key. -/
def sortRows (l : List Row) : List Row := l.insertionSort keyLE

/-- `sorted(df["date"].unique().tolist())`: distinct dates in ascending order. -/
def uniqueDatesAsc (l : List Row) : List Int :=
  ((l.map (·.date)).dedup).insertionSort (· ≤ ·)

/-- `upsert_history` from `io_csv.py`: load the batch (errors propagate), raise
on an empty batch, compute the batch's distinct dates, drop the ledger rows
whose date is among them (skipping the load when the ledger file does not
exist), append the batch, sort by the 5-key and persist.  Returns the persisted
ledger content and the sorted batch dates. -/
def upsert_history (histSrc todaySrc : CsvData) : Except PipeError (List Row × List Int) :=
  match load_csv todaySrc with
  | .error e => .error e
  | .ok today =>
      if today = [] then .error .emptyBatch
      else
        let today_dates := uniqueDatesAsc today
        if histSrc.fileExists then
          match load_csv histSrc with
          | .error e => .error e
          | .ok h =>
              .ok (sortRows ((h.filter fun r => decide (r.date ∉ today_dates)) ++ today),
                today_dates)
        else
          .ok (sortRows today, today_dates)

instance {ε α : Type _} [DecidableEq ε] [DecidableEq α] : DecidableEq (Except ε α) := fun a b =>
  match a, b with
  | .error e, .error e' =>
      if h : e = e' then .isTrue (by rw [h]) else .isFalse (by intro hh; cases hh; exact h rfl)
  | .ok x, .ok y =>
      if h : x = y then .isTrue (by rw [h]) else .isFalse (by intro hh; cases hh; exact h rfl)
  | .error _, .ok _ => .isFalse (by intro hh; cases hh)
  | .ok _, .error _ => .isFalse (by intro hh; cases hh)

/-- `safe_div` from `metrics.py`: division that returns 0 instead of faulting
when the divisor is 0. -/
def safe_div (n d : ℚ) : ℚ := if d ≠ 0 then n / d else 0

/-- `calc_roas` from `metrics.py`: ROAS(%) = (revenue / cost) * 100. -/
def calc_roas (revenue cost : ℚ) : ℚ := safe_div revenue cost * 100

/-- A row of the frame produced by `_agg_by_product`. -/
structure ProductAgg where
  product_name : String
  cost : ℚ
  revenue : ℚ
  conversions : ℚ
  roas : ℚ
deriving DecidableEq

/-- Column sum over a group of rows. -/
def sumBy (l : List Row) (f : Row → ℚ) : ℚ := (l.map f).sum

/-- The group keys of `df.groupby("product_name")`: distinct product names,
sorted ascending (pandas `groupby` sorts group keys by default). -/
def groupKeys (l : List Row) : List String :=
  ((l.map (·.product_name)).dedup).insertionSort (· ≤ ·)

/-- `_agg_by_product` from `metrics.py`: group by product name, sum cost /
revenue / conversions, and recompute ROAS per group; empty input yields the
empty frame. -/
def _agg_by_product (l : List Row) : List ProductAgg :=
  (groupKeys l).map fun p =>
    let g := l.filter fun r => decide (r.product_name = p)
    { product_name := p
      cost := sumBy g (·.cost)
      revenue := sumBy g (·.revenue)
      conversions := sumBy g (·.conversions)
      roas := calc_roas (sumBy g (·.revenue)) (sumBy g (·.cost)) }

/-- `hist[hist["date"] == d]`: the ledger rows of one date. -/
def dayRows (hist : List Row) (d : Int) : List Row :=
  hist.filter fun r => decide (r.date = d)

/-- `hist[(hist["date"] >= s) & (hist["date"] <= e)]`: the ledger rows of a
date window. -/
def windowRows (hist : List Row) (s e : Int) : List Row :=
  hist.filter fun r => decide (s ≤ r.date) && decide (r.date ≤ e)

/-- Python `max` over a list, `none` when empty. -/
def listMax? : List Int → Option Int
  | [] => none
  | a :: as =>
      match listMax? as with
      | none => some a
      | some m => some (max a m)

/-- `_pick_prev_date` from `metrics.py`: the largest date strictly below
`today_date`, or `none` when no such date exists. -/
def _pick_prev_date (all_dates : List Int) (today_date : Int) : Option Int :=
  listMax? (all_dates.filter fun d => decide (d < today_date))

/-- The `ProductDelta` dataclass of `metrics.py`. -/
structure ProductDelta where
  product_name : String
  cost_today : ℚ
  cost_prev : ℚ
  revenue_today : ℚ
  revenue_prev : ℚ
  conv_today : ℚ
  conv_prev : ℚ
  roas_today : ℚ
  roas_prev : ℚ
deriving DecidableEq

/-- `ProductDelta.cost_diff`. -/
def ProductDelta.cost_diff (d : ProductDelta) : ℚ := d.cost_today - d.cost_prev

/-- `ProductDelta.rev_diff`. -/
def ProductDelta.rev_diff (d : ProductDelta) : ℚ := d.revenue_today - d.revenue_prev

/-- `ProductDelta.roas_diff` (percentage-point change). -/
def ProductDelta.roas_diff (d : ProductDelta) : ℚ := d.roas_today - d.roas_prev

/-- The all-zero aggregate a product gets for a period it is absent from
(`fillna(0.0)` after the outer merge). -/
def zeroAgg (p : String) : ProductAgg := ⟨p, 0, 0, 0, 0⟩

/-- Row lookup of an aggregate frame by product name. -/
def findAgg (l : List ProductAgg) (p : String) : Option ProductAgg :=
  l.find? fun a => decide (a.product_name = p)

/-- The keys of a pandas outer merge on `product_name`: the union of both
sides' keys, sorted lexicographically (pandas sorts keys for outer joins). -/
def outerKeys (t p : List ProductAgg) : List String :=
  ((t.map (·.product_name) ++ p.map (·.product_name)).dedup).insertionSort (· ≤ ·)

/-- `t.merge(p, on="product_name", how="outer").fillna(0.0)`: each key of
either side, paired with its aggregate from each side or zeros where absent. -/
def outerJoinZero (t p : List ProductAgg) : List (ProductAgg × ProductAgg) :=
  (outerKeys t p).map fun k => ((findAgg t k).getD (zeroAgg k), (findAgg p k).getD (zeroAgg k))

/-- One merged row, relabelled with the `_today` / `_prev` suffixes. -/
def buildDelta (ab : ProductAgg × ProductAgg) : ProductDelta :=
  ⟨ab.1.product_name, ab.1.cost, ab.2.cost, ab.1.revenue, ab.2.revenue,
   ab.1.conversions, ab.2.conversions, ab.1.roas, ab.2.roas⟩

/-- `deltas.sort(key=lambda d: abs(d.roas_diff), reverse=True)`: descending
absolute ROAS change. -/
def deltaGE (a b : ProductDelta) : Prop := |b.roas_diff| ≤ |a.roas_diff|

instance : DecidableRel deltaGE := fun a b =>
  inferInstanceAs (Decidable (|b.roas_diff| ≤ |a.roas_diff|))

instance : IsTotal ProductDelta deltaGE := ⟨fun a b => le_total |b.roas_diff| |a.roas_diff|⟩

instance : IsTrans ProductDelta deltaGE := ⟨fun _ _ _ h₁ h₂ => le_trans h₂ h₁⟩

/-- `compute_latest_daily_deltas` from `metrics.py` (the returned title string,
which only embeds the two dates, is omitted). -/
def compute_latest_daily_deltas (histSrc todaySrc : CsvData) :
    Except PipeError (Int × Int × List ProductDelta) :=
  match load_csv histSrc with
  | .error e => .error e
  | .ok hist =>
      match load_csv todaySrc with
      | .error e => .error e
      | .ok today =>
          if today = [] then .error .emptyToday
          else if hist = [] then .error .emptyHistory
          else
            let today_date := (listMax? (today.map (·.date))).getD 0
            let all_dates := uniqueDatesAsc hist
            match _pick_prev_date all_dates today_date with
            | none => .error .noPriorDate
            | some prev_date =>
                let deltas :=
                  (outerJoinZero (_agg_by_product (dayRows hist today_date))
                    (_agg_by_product (dayRows hist prev_date))).map buildDelta
                .ok (today_date, prev_date, deltas.insertionSort deltaGE)

/-- One row of the weekly `by_product` frame (`_w1` / `_w2` renamed columns
plus the derived `roas_diff`). -/
structure WeeklyRow where
  product_name : String
  cost_w1 : ℚ
  revenue_w1 : ℚ
  conv_w1 : ℚ
  roas_w1 : ℚ
  cost_w2 : ℚ
  revenue_w2 : ℚ
  conv_w2 : ℚ
  roas_w2 : ℚ
  roas_diff : ℚ
deriving DecidableEq

/-- The `WeeklyDelta` dataclass of `metrics.py`. -/
structure WeeklyDelta where
  week1_start : Int
  week1_end : Int
  week2_start : Int
  week2_end : Int
  by_product : List WeeklyRow
deriving DecidableEq

/-- Python `date.weekday()` (Monday = 0 .. Sunday = 6) of an ordinal day
number: ordinal 1 (0001-01-01) is a Monday. -/
def weekday (d : Int) : Int := (d + 6) % 7

/-- One merged weekly row with `roas_diff = roas_w1 - roas_w2`. -/
def buildWeeklyRow (ab : ProductAgg × ProductAgg) : WeeklyRow :=
  ⟨ab.1.product_name, ab.1.cost, ab.1.revenue, ab.1.conversions, ab.1.roas,
   ab.2.cost, ab.2.revenue, ab.2.conversions, ab.2.roas, ab.1.roas - ab.2.roas⟩

/-- `sort_values("abs_roas_diff", ascending=False)`: descending absolute
weekly ROAS change. -/
def weeklyGE (a b : WeeklyRow) : Prop := |b.roas_diff| ≤ |a.roas_diff|

instance : DecidableRel weeklyGE := fun a b =>
  inferInstanceAs (Decidable (|b.roas_diff| ≤ |a.roas_diff|))

instance : IsTotal WeeklyRow weeklyGE := ⟨fun a b => le_total |b.roas_diff| |a.roas_diff|⟩

instance : IsTrans WeeklyRow weeklyGE := ⟨fun _ _ _ h₁ h₂ => le_trans h₂ h₁⟩

/-- `compute_weekly_deltas_for_monday` from `metrics.py`: only Sundays produce
a result; the two windows are the last 7 days and the 7 days before them;
an empty ledger or an empty window yields `none`. -/
def compute_weekly_deltas_for_monday (histSrc : CsvData) (today_date : Int) :
    Except PipeError (Option WeeklyDelta) :=
  if weekday today_date ≠ 6 then .ok none
  else
    match load_csv histSrc with
    | .error e => .error e
    | .ok hist =>
        if hist = [] then .ok none
        else
          let w1_end := today_date
          let w1_start := w1_end - 6
          let w2_end := w1_start - 1
          let w2_start := w2_end - 6
          let df_w1 := windowRows hist w1_start w1_end
          let df_w2 := windowRows hist w2_start w2_end
          if df_w1 = [] ∨ df_w2 = [] then .ok none
          else
            .ok (some
              { week1_start := w1_start, week1_end := w1_end
                week2_start := w2_start, week2_end := w2_end
                by_product :=
                  ((outerJoinZero (_agg_by_product df_w1) (_agg_by_product df_w2)).map
                    buildWeeklyRow).insertionSort weeklyGE })

/-- The outcome of the narrative-collaborator call
(`client.chat.completions.create` in `llm_hf.py`): either the returned
message content, or a raised exception carrying its type name. -/
inductive LlmOutcome where
  | success (text : String) : LlmOutcome
  | failure (excName : String) : LlmOutcome
deriving DecidableEq

/-- The fallback message of `generate_commentary`'s `except` branch: an
f-string embedding the exception's type name. -/
def fallbackMessage (excName : String) : String :=
  "(AI 코멘트 생성 실패: " ++ excName ++ ") 오늘은 지표 요약만 전송합니다."

/-- `generate_commentary` from `llm_hf.py`, as a function of the collaborator
call's outcome: the stripped response on success, the fallback message on any
raised exception. -/
def generate_commentary : LlmOutcome → String
  | .success t => pyStrip t
  | .failure e => fallbackMessage e

/-- The final report text assembled in `main` (step 6 of `main.py`). -/
def compose_report (title daily_lines weekly_block ai_comment : String) : String :=
  "📌 " ++ title ++ "\n" ++ daily_lines ++ weekly_block ++ "\n\n🤖 AI 코멘트\n" ++ ai_comment

/-- Steps 5-6 of `main` in `main.py`: pick the AI comment (narrative call when
the LLM input is non-blank, otherwise the insufficient-data placeholder) and
compose the message handed to `send_slack`. -/
def main_message (title daily_lines weekly_block llm_input : String)
    (outcome : LlmOutcome) : String :=
  let ai_comment :=
    if pyStrip llm_input ≠ "" then generate_commentary outcome
    else ("(AI 분석을 위한 충분한 지표 데이터가 부족합니다.)")
  compose_report title daily_lines weekly_block ai_comment

/-- Fold a list into an accumulator from the right by ordered insertion. -/
def insertAll {α : Type _} (r : α → α → Prop) [DecidableRel r] (L s : List α) : List α :=
  L.foldr (fun x acc => acc.orderedInsert r x) s

section StableSortLemmas

variable {α : Type _} (r : α → α → Prop) [DecidableRel r]

/-- Inserting an element that is below everything in the list puts it in front. -/
theorem orderedInsert_eq_cons (x : α) (s : List α) (h : ∀ b ∈ s, r x b) :
    s.orderedInsert r x = x :: s := by
  cases s with
  | nil => rfl
  | cons b t => simp [List.orderedInsert, h b (List.mem_cons_self b t)]

/-- Filtering commutes with ordered insertion into a sorted list. -/
theorem filter_orderedInsert [IsTotal α r] [IsTrans α r] (p : α → Bool) (x : α) :
    ∀ s : List α, List.Sorted r s →
      (s.orderedInsert r x).filter p =
        if p x then (s.filter p).orderedInsert r x else s.filter p := by
  intro s
  induction s with
  | nil =>
      intro _
      simp only [List.orderedInsert, List.filter]
      by_cases hx : p x <;> simp [hx]
  | cons y ys ih =>
      intro hs
      have hys : List.Sorted r ys := hs.of_cons
      have hyall : ∀ b ∈ ys, r y b := List.rel_of_sorted_cons hs
      by_cases hxy : r x y
      · by_cases hx : p x
        · by_cases hy : p y
          · simp [List.orderedInsert, hxy, hx, hy, List.filter_cons]
          · simp only [List.orderedInsert, if_pos hxy, List.filter_cons, hx, hy, if_pos hx]
            simp only [Bool.false_eq_true, if_false]
            refine (orderedInsert_eq_cons r x (ys.filter p) ?_).symm
            intro b hb
            exact IsTrans.trans x y b hxy (hyall b (List.mem_of_mem_filter hb))
        · by_cases hy : p y <;>
            simp [List.orderedInsert, hxy, hx, hy, List.filter_cons]
      · have ihy := ih hys
        by_cases hx : p x
        · by_cases hy : p y
          · simp [List.orderedInsert, hxy, hx, hy, List.filter_cons, ihy]
          · simp [List.orderedInsert, hxy, hx, hy, List.filter_cons, ihy]
        · by_cases hy : p y <;>
            simp [List.orderedInsert, hxy, hx, hy, List.filter_cons, ihy]

/-- Filtering commutes with the stable insertion sort. -/
theorem filter_insertionSort [IsTotal α r] [IsTrans α r] (p : α → Bool) (l : List α) :
    (l.insertionSort r).filter p = (l.filter p).insertionSort r := by
  induction l with
  | nil => rfl
  | cons a l ih =>
      have hs : List.Sorted r (l.insertionSort r) := List.sorted_insertionSort r l
      by_cases ha : p a
      · simp [List.insertionSort, List.filter_cons, ha,
          filter_orderedInsert r p a (l.insertionSort r) hs, ih]
      · simp [List.insertionSort, List.filter_cons, ha,
          filter_orderedInsert r p a (l.insertionSort r) hs, ih]

/-- Two ordered insertions of strictly comparable elements commute. -/
theorem orderedInsert_comm [IsTrans α r] {a b : α} (hba : r b a) (hab : ¬r a b) :
    ∀ s : List α, (s.orderedInsert r a).orderedInsert r b =
      (s.orderedInsert r b).orderedInsert r a := by
  intro s
  induction s with
  | nil => simp [List.orderedInsert, hba, hab]
  | cons c t ih =>
      by_cases hac : r a c
      · have hbc : r b c := IsTrans.trans b a c hba hac
        simp [List.orderedInsert, hac, hbc, hba, hab]
      · by_cases hbc : r b c
        · simp [List.orderedInsert, hac, hbc, hab]
        · simp [List.orderedInsert, hac, hbc, ih]

/-- `insertionSort` of an append inserts the prefix into the sorted suffix. -/
theorem insertionSort_append (A T : List α) :
    (A ++ T).insertionSort r = insertAll r A (T.insertionSort r) := by
  induction A with
  | nil => rfl
  | cons a A ih => simp [List.insertionSort, insertAll, ih]

/-- Ordered insertion into the inserted collection commutes with `insertAll`. -/
theorem insertAll_orderedInsert [IsTotal α r] [IsTrans α r] (a : α) :
    ∀ L s : List α, insertAll r (L.orderedInsert r a) s = (insertAll r L s).orderedInsert r a := by
  intro L
  induction L with
  | nil => intro s; rfl
  | cons c L ih =>
      intro s
      by_cases hac : r a c
      · simp [List.orderedInsert, hac, insertAll]
      · have hca : r c a := (IsTotal.total (r := r) a c).resolve_left hac
        simp only [List.orderedInsert, if_neg hac]
        show insertAll r (c :: L.orderedInsert r a) s = _
        simp only [insertAll, List.foldr_cons] at ih ⊢
        rw [ih s]
        exact orderedInsert_comm r hca hac _

/-- `insertAll` only depends on the stable-sorted order of the inserted list. -/
theorem insertAll_insertionSort [IsTotal α r] [IsTrans α r] (A : List α) (s : List α) :
    insertAll r (A.insertionSort r) s = insertAll r A s := by
  induction A generalizing s with
  | nil => rfl
  | cons a A ih =>
      show insertAll r ((A.insertionSort r).orderedInsert r a) s = _
      rw [insertAll_orderedInsert r a, ih s]
      rfl

/-- Sorting is invariant under pre-sorting a prefix. -/
theorem insertionSort_sorted_prefix [IsTotal α r] [IsTrans α r] (A T : List α) :
    ((A.insertionSort r) ++ T).insertionSort r = (A ++ T).insertionSort r := by
  rw [insertionSort_append, insertAll_insertionSort, ← insertionSort_append]

end StableSortLemmas

/-- `listMax?` returns `none` exactly on the empty list. -/
theorem listMax?_eq_none_iff {l : List Int} : listMax? l = none ↔ l = [] := by
  cases l with
  | nil => simp [listMax?]
  | cons a as =>
      simp only [listMax?]
      cases listMax? as <;> simp

/-- The value of `listMax?` is an element of the list. -/
theorem listMax?_mem : ∀ {l : List Int} {m : Int}, listMax? l = some m → m ∈ l := by
  intro l
  induction l with
  | nil => intro m h; simp [listMax?] at h
  | cons a as ih =>
      intro m h
      simp only [listMax?] at h
      cases has : listMax? as with
      | none => rw [has] at h; cases h; simp
      | some m' =>
          rw [has] at h
          cases h
          rcases max_choice a m' with hm | hm <;> rw [hm]
          · simp
          · exact List.mem_cons_of_mem a (ih has)

/-- The value of `listMax?` bounds every element of the list. -/
theorem listMax?_ge : ∀ {l : List Int} {m : Int}, listMax? l = some m → ∀ x ∈ l, x ≤ m := by
  intro l
  induction l with
  | nil => intro m _ x hx; cases hx
  | cons a as ih =>
      intro m h x hx
      simp only [listMax?] at h
      cases has : listMax? as with
      | none =>
          rw [has] at h; cases h
          rcases List.mem_cons.mp hx with hx | hx
          · exact le_of_eq hx
          · exact absurd (listMax?_eq_none_iff.mp has ▸ hx) (List.not_mem_nil x)
      | some m' =>
          rw [has] at h
          cases h
          rcases List.mem_cons.mp hx with hx | hx
          · exact hx ▸ le_max_left a m'
          · exact le_trans (ih has x hx) (le_max_right a m')

/-- Sample raw row: product "x" on ordinal date 5. -/
def rawX5 : RawRow :=
  { date := some 5, product_name := " x ", campaign_name := "c1", device := "pc", keyword := "k1",
    impressions := some 10, clicks := some 2, avg_cpc := some 3, cost := some 100,
    conversions := some 1, revenue := some 50 }

/-- Sample raw row: product "y" on ordinal date 6. -/
def rawY6 : RawRow :=
  { date := some 6, product_name := "y", campaign_name := "c2", device := "mo", keyword := "k2",
    impressions := some 20, clicks := none, avg_cpc := some 4, cost := some 200,
    conversions := some 2, revenue := some 300 }

/-- Sample raw row: product "x" on ordinal date 6. -/
def rawX6 : RawRow :=
  { date := some 6, product_name := "x", campaign_name := "c1", device := "pc", keyword := "k1",
    impressions := some 5, clicks := some 1, avg_cpc := some 2, cost := some 80,
    conversions := some 1, revenue := some 40 }

/-- Sample raw row with an unparseable date cell. -/
def rawBadDate : RawRow :=
  { date := none, product_name := "z", campaign_name := "c3", device := "pc", keyword := "k3",
    impressions := some 1, clicks := some 1, avg_cpc := some 1, cost := some 1,
    conversions := some 1, revenue := some 1 }

/-- Sample raw row: product "x" on ordinal date 10 (inside week [8,14]). -/
def rawX10 : RawRow :=
  { date := some 10, product_name := "x", campaign_name := "c1", device := "pc", keyword := "k1",
    impressions := some 10, clicks := some 2, avg_cpc := some 3, cost := some 100,
    conversions := some 1, revenue := some 150 }

/-- Sample raw row: product "y" on ordinal date 3 (inside week [1,7]). -/
def rawY3 : RawRow :=
  { date := some 3, product_name := "y", campaign_name := "c2", device := "mo", keyword := "k2",
    impressions := some 20, clicks := some 4, avg_cpc := some 4, cost := some 200,
    conversions := some 2, revenue := some 100 }

/-- Sample ledger source: products "x"/"y" over dates 3, 5, 6, 10. -/
def sampleHistSrc : CsvData :=
  CsvData.table REQUIRED_COLUMNS [rawY3, rawX5, rawY6, rawX10]

/-- Sample batch source: one row on date 6 plus one unparseable-date row. -/
def sampleTodaySrc : CsvData :=
  CsvData.table REQUIRED_COLUMNS [rawX6, rawBadDate]

/-- Cleaned form of `rawX6`. -/
def x6Row : Row :=
  { date := 6, product_name := "x", campaign_name := "c1", device := "pc", keyword := "k1",
    impressions := 5, clicks := 1, avg_cpc := 2, cost := 80, conversions := 1, revenue := 40 }

/-- A re-upload of the ledger content `[x6Row]` as a CSV source. -/
def reSrcSample : CsvData := CsvData.table REQUIRED_COLUMNS [rawX6]

/-- A cleaned row with zero cost (division-guard sample). -/
def rowZeroCost : Row :=
  { date := 5, product_name := "x", campaign_name := "c", device := "pc", keyword := "k",
    impressions := 1, clicks := 1, avg_cpc := 1, cost := 0, conversions := 1, revenue := 7 }

/-- The aggregate of `[rowZeroCost]`. -/
def gZeroCost : ProductAgg := ⟨"x", 0, 7, 1, 0⟩

/-- Cleaned form of `rawY3`. -/
def y3Row : Row :=
  { date := 3, product_name := "y", campaign_name := "c2", device := "mo", keyword := "k2",
    impressions := 20, clicks := 4, avg_cpc := 4, cost := 200, conversions := 2, revenue := 100 }

/-- Cleaned form of `rawX5` (strings stripped, missing clicks zeroed). -/
def x5Row : Row :=
  { date := 5, product_name := "x", campaign_name := "c1", device := "pc", keyword := "k1",
    impressions := 10, clicks := 2, avg_cpc := 3, cost := 100, conversions := 1, revenue := 50 }

/-- Cleaned form of `rawY6` (missing clicks zeroed). -/
def y6Row : Row :=
  { date := 6, product_name := "y", campaign_name := "c2", device := "mo", keyword := "k2",
    impressions := 20, clicks := 0, avg_cpc := 4, cost := 200, conversions := 2, revenue := 300 }

/-- Cleaned form of `rawX10`. -/
def x10Row : Row :=
  { date := 10, product_name := "x", campaign_name := "c1", device := "pc", keyword := "k1",
    impressions := 10, clicks := 2, avg_cpc := 3, cost := 100, conversions := 1, revenue := 150 }

/-- Sample ledger source with product "x" on dates 5 and 6. -/
def histW : CsvData := CsvData.table REQUIRED_COLUMNS [rawX5, rawX6]

/-- Sample ledger source with product "x" on dates 5 and 10. -/
def histWeek : CsvData := CsvData.table REQUIRED_COLUMNS [rawX5, rawX10]

/-- The ranked daily delta list for `histW` with batch date 6. -/
def dsW : List ProductDelta :=
  ((outerJoinZero (_agg_by_product (dayRows [x5Row, x6Row] 6))
    (_agg_by_product (dayRows [x5Row, x6Row] 5))).map buildDelta).insertionSort deltaGE

/-- The weekly delta produced from `histWeek` on Sunday (ordinal 14). -/
def wW : WeeklyDelta :=
  { week1_start := 14 - 6, week1_end := 14, week2_start := 14 - 6 - 1 - 6,
    week2_end := 14 - 6 - 1,
    by_product := ((outerJoinZero (_agg_by_product (windowRows [x5Row, x10Row] (14 - 6) 14))
      (_agg_by_product (windowRows [x5Row, x10Row] (14 - 6 - 1 - 6) (14 - 6 - 1)))).map
        buildWeeklyRow).insertionSort weeklyGE }

/-- Membership in the sorted distinct dates is membership in the date column. -/
theorem mem_uniqueDatesAsc {l : List Row} {d : Int} :
    d ∈ uniqueDatesAsc l ↔ d ∈ l.map (·.date) := by
  unfold uniqueDatesAsc
  rw [List.mem_insertionSort, List.mem_dedup]

/-- `filterMap cleanRow` keeps exactly the rows with a parsed date. -/
theorem length_filterMap_cleanRow :
    ∀ rows : List RawRow,
      (rows.filterMap cleanRow).length = (rows.filter fun raw => raw.date.isSome).length := by
  intro rows
  induction rows with
  | nil => rfl
  | cons raw rest ih =>
      cases hd : raw.date with
      | none => simp [List.filterMap_cons, List.filter_cons, cleanRow, hd, ih]
      | some d => simp [List.filterMap_cons, List.filter_cons, cleanRow, hd, ih]

/-- Inversion of a successful `upsert_history` run. -/
theorem upsert_ok_elim {histSrc todaySrc : CsvData} {L : List Row} {ds : List Int}
    (h : upsert_history histSrc todaySrc = .ok (L, ds)) :
    ∃ today, load_csv todaySrc = .ok today ∧ today ≠ [] ∧ ds = uniqueDatesAsc today ∧
      ((histSrc = CsvData.missing ∧ L = sortRows today) ∨
        ∃ hl, load_csv histSrc = .ok hl ∧
          L = sortRows
            ((hl.filter fun r => decide (r.date ∉ uniqueDatesAsc today)) ++ today)) := by
  unfold upsert_history at h
  cases ht : load_csv todaySrc with
  | error e => rw [ht] at h; simp at h
  | ok today =>
      rw [ht] at h
      simp only [] at h
      refine ⟨today, rfl, ?_⟩
      by_cases hne : today = []
      · rw [if_pos hne] at h; simp at h
      · rw [if_neg hne] at h
        cases hex : histSrc.fileExists with
        | false =>
            have hm : histSrc = CsvData.missing := by
              cases histSrc <;> simp_all [CsvData.fileExists]
            have hcond : ¬ (histSrc.fileExists = true) := by simp [hex]
            rw [if_neg hcond] at h
            injection h with h
            injection h with h1 h2
            exact ⟨hne, h2.symm, Or.inl ⟨hm, h1.symm⟩⟩
        | true =>
            rw [if_pos hex] at h
            cases hh : load_csv histSrc with
            | error e => rw [hh] at h; simp at h
            | ok hl =>
                rw [hh] at h
                simp only [] at h
                injection h with h
                injection h with h1 h2
                exact ⟨hne, h2.symm, Or.inr ⟨hl, rfl, h1.symm⟩⟩

/-- Every aggregate row's ROAS is recomputed from its summed revenue and cost. -/
theorem agg_roas_eq {l : List Row} {g : ProductAgg} (hg : g ∈ _agg_by_product l) :
    g.roas = calc_roas g.revenue g.cost := by
  unfold _agg_by_product at hg
  rcases List.mem_map.mp hg with ⟨p, _, rfl⟩
  rfl

/-- C7: for every aggregated product group the derived ROAS is
(revenue/cost) x 100 when cost is nonzero and exactly 0 when cost is 0, and
`safe_div` / `calc_roas` are total: they return 0 at a zero divisor instead of
faulting. -/
theorem roas_division_safe :
    (∀ n d : ℚ, (d = 0 → safe_div n d = 0 ∧ calc_roas n d = 0) ∧
      (d ≠ 0 → safe_div n d = n / d ∧ calc_roas n d = n / d * 100)) ∧
    (∀ l : List Row, ∀ g ∈ _agg_by_product l,
      (g.cost = 0 → g.roas = 0) ∧ (g.cost ≠ 0 → g.roas = g.revenue / g.cost * 100)) := by
  constructor
  · intro n d
    constructor
    · intro hd
      constructor <;> simp [safe_div, calc_roas, hd]
    · intro hd
      constructor <;> simp [safe_div, calc_roas, hd]
  · intro l g hg
    have hr := agg_roas_eq hg
    constructor
    · intro hc
      rw [hr, calc_roas, safe_div, hc]
      simp
    · intro hc
      rw [hr, calc_roas, safe_div, if_pos hc]

/-- C7 witness: concrete zero-cost aggregate and concrete division values. -/
theorem roas_division_safe_witness :
    ((5 : ℚ) ≠ 0 ∧ safe_div 6 5 = 6 / 5) ∧
    (gZeroCost ∈ _agg_by_product [rowZeroCost] ∧ gZeroCost.cost = 0 ∧ gZeroCost.roas = 0) := by
  have hagg : _agg_by_product [rowZeroCost] = [gZeroCost] := by
    simp [_agg_by_product, groupKeys, sumBy, rowZeroCost, gZeroCost, calc_roas, safe_div,
      List.insertionSort, List.orderedInsert]
  have hmem : gZeroCost ∈ _agg_by_product [rowZeroCost] := by
    rw [hagg]; exact List.mem_singleton.mpr rfl
  exact ⟨⟨by norm_num, ((roas_division_safe.1 6 5).2 (by norm_num)).1⟩, hmem, rfl,
    (roas_division_safe.2 [rowZeroCost] gZeroCost hmem).1 rfl⟩

/-- C8: `load_csv` fails with the missing-file error iff the source does not
exist; an existing zero-byte source yields an empty valid collection; a
readable source whose header lacks a required column fails with the schema
error; an existing zero-row correctly-headed source yields zero rows. -/
theorem load_csv_error_modes :
    (∀ src, load_csv src = .error .missingFile ↔ src = CsvData.missing) ∧
    load_csv CsvData.emptyFile = .ok [] ∧
    (∀ header rows, (∃ c ∈ REQUIRED_COLUMNS, c ∉ header) →
      load_csv (CsvData.table header rows) = .error .schemaError) ∧
    (∀ header, (∀ c ∈ REQUIRED_COLUMNS, c ∈ header) →
      load_csv (CsvData.table header []) = .ok []) := by
  refine ⟨?_, rfl, ?_, ?_⟩
  · intro src
    constructor
    · intro h
      cases src with
      | missing => rfl
      | emptyFile => simp [load_csv] at h
      | table header rows =>
          simp only [load_csv] at h
          by_cases hc : ∀ c ∈ REQUIRED_COLUMNS, c ∈ header
          · rw [if_pos hc] at h
            exact absurd h (by simp)
          · rw [if_neg hc] at h
            injection h with h'
            exact absurd h' (by decide)
    · intro h
      rw [h]
      rfl
  · intro header rows hex
    obtain ⟨c, hc, hnc⟩ := hex
    have hnall : ¬ ∀ c ∈ REQUIRED_COLUMNS, c ∈ header := fun hall => hnc (hall c hc)
    simp [load_csv, hnall]
  · intro header hall
    simp only [load_csv]
    rw [if_pos hall]
    rfl

/-- C8 witness: a header missing `product_name` is a schema error, the full
header with zero rows loads as zero rows, a missing file is the missing-file
error. -/
theorem load_csv_error_modes_witness :
    load_csv (CsvData.table ["date"] []) = .error .schemaError ∧
    load_csv (CsvData.table REQUIRED_COLUMNS []) = .ok [] ∧
    load_csv CsvData.missing = .error .missingFile :=
  ⟨load_csv_error_modes.2.2.1 ["date"] [] ⟨"product_name", by decide, by decide⟩,
   load_csv_error_modes.2.2.2 REQUIRED_COLUMNS (fun c hc => hc),
   (load_csv_error_modes.1 CsvData.missing).mpr rfl⟩

/-- C9: every record returned by `load_csv` stems from an input row whose date
parsed (rows with unparseable dates are dropped, never kept with a null date),
and every ledger record persisted by `upsert_history` comes from one of the
two loaded collections, so it also has a parsed date. -/
theorem load_csv_never_absent_date :
    (∀ header rows out, load_csv (CsvData.table header rows) = .ok out →
      (∀ rec ∈ out, ∃ raw ∈ rows, raw.date = some rec.date) ∧
      out.length = (rows.filter fun raw => raw.date.isSome).length ∧
      (∀ raw ∈ rows, raw.date = none → cleanRow raw = none)) ∧
    (∀ histSrc todaySrc L ds hl tl, load_csv histSrc = .ok hl → load_csv todaySrc = .ok tl →
      upsert_history histSrc todaySrc = .ok (L, ds) →
      ∀ rec ∈ L, rec ∈ hl ∨ rec ∈ tl) := by
  constructor
  · intro header rows out hok
    have hout : out = rows.filterMap cleanRow := by
      by_cases hc : ∀ c ∈ REQUIRED_COLUMNS, c ∈ header
      · simp only [load_csv, if_pos hc, Except.ok.injEq] at hok
        exact hok.symm
      · simp [load_csv, hc] at hok
    subst hout
    refine ⟨?_, length_filterMap_cleanRow rows, ?_⟩
    · intro rec hrec
      rcases List.mem_filterMap.mp hrec with ⟨raw, hraw, hclean⟩
      refine ⟨raw, hraw, ?_⟩
      cases hd : raw.date with
      | none => simp [cleanRow, hd] at hclean
      | some d =>
          simp only [cleanRow, hd, Option.some.injEq] at hclean
          rw [← hclean]
    · intro raw _ hd
      simp [cleanRow, hd]
  · intro histSrc todaySrc L ds hl tl hH hT hup rec hrec
    obtain ⟨today, hT', htne, hds, hcases⟩ := upsert_ok_elim hup
    have htl : tl = today := by
      rw [hT] at hT'
      exact Except.ok.inj hT'
    subst htl
    rcases hcases with ⟨hm, hL⟩ | ⟨hl', hh', hL⟩
    · rw [hm] at hH
      simp [load_csv] at hH
    · have hhl : hl' = hl := by
        rw [hH] at hh'
        exact (Except.ok.inj hh').symm
      subst hhl
      rw [hL] at hrec
      unfold sortRows at hrec
      rw [List.mem_insertionSort] at hrec
      rcases List.mem_append.mp hrec with hmem | hmem
      · exact Or.inl (List.mem_of_mem_filter hmem)
      · exact Or.inr hmem

/-- C9 witness: the sample batch keeps exactly its one parseable-date row, and
a sample merged ledger record comes from the loaded ledger or batch. -/
theorem load_csv_never_absent_date_witness :
    [x6Row].length = ([rawX6, rawBadDate].filter fun raw => raw.date.isSome).length ∧
    (x6Row ∈ [y3Row, x5Row, y6Row, x10Row] ∨ x6Row ∈ [x6Row]) :=
  ⟨(load_csv_never_absent_date.1 REQUIRED_COLUMNS [rawX6, rawBadDate] [x6Row] (by decide)).2.1,
   load_csv_never_absent_date.2 sampleHistSrc sampleTodaySrc [y3Row, x5Row, x6Row, x10Row] [6]
     [y3Row, x5Row, y6Row, x10Row] [x6Row] (by decide) (by decide) (by decide) x6Row (by decide)⟩

/-- C10 counterexample: the substituted placeholder is not one fixed string —
it embeds the exception's type name, so two different collaborator failures
produce two different placeholder texts. -/
theorem generate_commentary_placeholder_varies :
    generate_commentary (LlmOutcome.failure ("APITimeoutError")) ≠
      generate_commentary (LlmOutcome.failure ("ValueError")) := by
  decide

/-- C10 amended: when the narrative collaborator raises any failure,
`generate_commentary` recovers locally and returns the fallback text instead of
propagating, and the full report is still composed with the fallback in the
narrative block; the fallback is a fixed template that embeds the failure's
type name (not one fixed string). -/
theorem generate_commentary_recovers
    (e title daily weekly llmInput : String) (hne : pyStrip llmInput ≠ "") :
    generate_commentary (LlmOutcome.failure e) = fallbackMessage e ∧
    main_message title daily weekly llmInput (LlmOutcome.failure e) =
      compose_report title daily weekly (fallbackMessage e) := by
  refine ⟨rfl, ?_⟩
  simp only [main_message]
  rw [if_pos hne]
  rfl

/-- C10 amended-claim witness: a concrete failed narrative call still yields
the fully composed report with the fallback text in the narrative block. -/
theorem generate_commentary_recovers_witness :
    pyStrip ("x | cost +1") ≠ "" ∧
    main_message ("t") ("d") ("") ("x | cost +1") (LlmOutcome.failure ("TimeoutError")) =
      compose_report ("t") ("d") ("") (fallbackMessage ("TimeoutError")) :=
  ⟨by decide,
   (generate_commentary_recovers ("TimeoutError") ("t") ("d") ("") ("x | cost +1") (by decide)).2⟩

/-- C1: for every batch source parsing to at least one record and every ledger
source (a missing ledger is an empty one), `upsert_history` persists the
previous ledger rows whose dates are outside the batch's date set together
with all batch rows, sorted ascending by the 5-key; every prior row whose date
occurs in the batch is gone unless re-introduced by the batch itself. -/
theorem upsert_full_date_replacement
    (histSrc todaySrc : CsvData) (today hl : List Row)
    (hT : load_csv todaySrc = .ok today) (hTne : today ≠ [])
    (hH : (histSrc = CsvData.missing ∧ hl = []) ∨ load_csv histSrc = .ok hl) :
    ∃ L, upsert_history histSrc todaySrc = .ok (L, uniqueDatesAsc today) ∧
      L.Perm ((hl.filter fun r => decide (r.date ∉ uniqueDatesAsc today)) ++ today) ∧
      List.Sorted keyLE L ∧
      ∀ rec : Row, rec ∈ L ↔
        (rec ∈ today ∨ (rec ∈ hl ∧ rec.date ∉ today.map (·.date))) := by
  rcases hH with ⟨hm, hnil⟩ | hok
  · subst hm
    subst hnil
    refine ⟨sortRows today, ?_, ?_, List.sorted_insertionSort keyLE today, ?_⟩
    · unfold upsert_history
      rw [hT]
      simp only []
      rw [if_neg hTne]
      rfl
    · simp only [List.filter_nil, List.nil_append]
      exact List.perm_insertionSort keyLE today
    · intro rec
      unfold sortRows
      rw [List.mem_insertionSort]
      simp
  · have hex : histSrc.fileExists = true := by
      cases histSrc with
      | missing => simp [load_csv] at hok
      | emptyFile => rfl
      | table header rows => rfl
    refine ⟨sortRows ((hl.filter fun r => decide (r.date ∉ uniqueDatesAsc today)) ++ today),
      ?_, List.perm_insertionSort keyLE _, List.sorted_insertionSort keyLE _, ?_⟩
    · unfold upsert_history
      rw [hT]
      simp only []
      rw [if_neg hTne, if_pos hex, hok]
    · intro rec
      unfold sortRows
      rw [List.mem_insertionSort, List.mem_append, List.mem_filter]
      simp only [decide_eq_true_eq, mem_uniqueDatesAsc]
      tauto

/-- C1 witness: upserting the date-6 batch into the sample ledger replaces the
ledger's date-6 rows and keeps the rest, sorted. -/
theorem upsert_full_date_replacement_witness :
    ∃ L, upsert_history sampleHistSrc sampleTodaySrc = .ok (L, uniqueDatesAsc [x6Row]) ∧
      L.Perm (([y3Row, x5Row, y6Row, x10Row].filter fun r =>
        decide (r.date ∉ uniqueDatesAsc [x6Row])) ++ [x6Row]) ∧
      List.Sorted keyLE L ∧
      ∀ rec : Row, rec ∈ L ↔
        (rec ∈ [x6Row] ∨ (rec ∈ [y3Row, x5Row, y6Row, x10Row] ∧
          rec.date ∉ [x6Row].map (·.date))) :=
  upsert_full_date_replacement sampleHistSrc sampleTodaySrc [x6Row]
    [y3Row, x5Row, y6Row, x10Row] (by decide) (by decide) (Or.inr (by decide))

/-- C2: `upsert_history` is idempotent — re-upserting the same batch into the
ledger it just produced leaves the ledger content and the returned dates
unchanged. -/
theorem upsert_idempotent
    (histSrc reSrc todaySrc : CsvData) (L1 L2 : List Row) (ds1 ds2 : List Int)
    (h1 : upsert_history histSrc todaySrc = .ok (L1, ds1))
    (hre : load_csv reSrc = .ok L1)
    (h2 : upsert_history reSrc todaySrc = .ok (L2, ds2)) :
    L2 = L1 ∧ ds2 = ds1 := by
  obtain ⟨today, hT, hTne, hds1, hc1⟩ := upsert_ok_elim h1
  obtain ⟨today2, hT2, _, hds2, hc2⟩ := upsert_ok_elim h2
  rw [hT] at hT2
  have ht2 : today2 = today := (Except.ok.inj hT2).symm
  subst today2
  have hds : ds2 = ds1 := by rw [hds2, hds1]
  obtain ⟨A, hA_filter, hL1⟩ :
      ∃ A, (A.filter fun r => decide (r.date ∉ uniqueDatesAsc today)) = A ∧
        L1 = sortRows (A ++ today) := by
    rcases hc1 with ⟨_, hL⟩ | ⟨hl, _, hL⟩
    · exact ⟨[], rfl, by simpa using hL⟩
    · refine ⟨hl.filter fun r => decide (r.date ∉ uniqueDatesAsc today), ?_, hL⟩
      exact List.filter_eq_self.mpr fun a ha => (List.mem_filter.mp ha).2
  rcases hc2 with ⟨hm, _⟩ | ⟨hl2, hh2, hL2⟩
  · rw [hm] at hre
    simp [load_csv] at hre
  · rw [hre] at hh2
    have hhl : hl2 = L1 := Except.ok.inj hh2.symm
    subst hl2
    have htodayf : (today.filter fun r => decide (r.date ∉ uniqueDatesAsc today)) = [] := by
      rw [List.filter_eq_nil_iff]
      intro a ha
      simp only [decide_eq_true_eq, mem_uniqueDatesAsc, Decidable.not_not]
      exact List.mem_map_of_mem (·.date) ha
    have hfL1 : (L1.filter fun r => decide (r.date ∉ uniqueDatesAsc today)) =
        List.insertionSort keyLE A := by
      rw [hL1]
      unfold sortRows
      rw [filter_insertionSort keyLE _ (A ++ today), List.filter_append, hA_filter, htodayf,
        List.append_nil]
    refine ⟨?_, hds⟩
    rw [hL2, hfL1, hL1]
    unfold sortRows
    exact insertionSort_sorted_prefix keyLE A today

/-- C2 witness: a first upsert of the sample batch into an absent ledger gives
the singleton ledger; re-upserting the same batch into it changes nothing. -/
theorem upsert_idempotent_witness : ([x6Row] : List Row) = [x6Row] ∧ ([6] : List Int) = [6] :=
  upsert_idempotent CsvData.missing reSrcSample sampleTodaySrc [x6Row] [x6Row] [6] [6]
    (by decide) (by decide) (by decide)

/-- C3: for a non-empty parsed batch and non-empty ledger,
`compute_latest_daily_deltas` anchors `today_date` to the batch's maximum
date, picks `prev_date` as the largest ledger date strictly below it, and
raises the no-prior-date error exactly when no ledger date is strictly below
it. -/
theorem daily_dates_and_no_prior
    (histSrc todaySrc : CsvData) (hist today : List Row)
    (hH : load_csv histSrc = .ok hist) (hT : load_csv todaySrc = .ok today)
    (hTne : today ≠ []) (hHne : hist ≠ []) :
    ∃ td, td ∈ today.map (·.date) ∧ (∀ d ∈ today.map (·.date), d ≤ td) ∧
      (compute_latest_daily_deltas histSrc todaySrc = .error .noPriorDate ↔
        ∀ d ∈ hist.map (·.date), ¬ d < td) ∧
      (∀ td' pd ds, compute_latest_daily_deltas histSrc todaySrc = .ok (td', pd, ds) →
        td' = td ∧ pd ∈ hist.map (·.date) ∧ pd < td ∧
          ∀ d ∈ hist.map (·.date), d < td → d ≤ pd) ∧
      ((∃ pd ds, compute_latest_daily_deltas histSrc todaySrc = .ok (td, pd, ds)) ∨
        compute_latest_daily_deltas histSrc todaySrc = .error .noPriorDate) := by
  have hmapne : today.map (·.date) ≠ [] := by
    intro hcon
    exact hTne (List.map_eq_nil_iff.mp hcon)
  obtain ⟨m, hm⟩ : ∃ m, listMax? (today.map (·.date)) = some m := by
    cases hml : listMax? (today.map (·.date)) with
    | none => exact absurd (listMax?_eq_none_iff.mp hml) hmapne
    | some m => exact ⟨m, rfl⟩
  refine ⟨m, listMax?_mem hm, listMax?_ge hm, ?_⟩
  cases hp : _pick_prev_date (uniqueDatesAsc hist) m with
  | none =>
      have hE : compute_latest_daily_deltas histSrc todaySrc = .error .noPriorDate := by
        unfold compute_latest_daily_deltas
        rw [hH, hT]
        simp only []
        rw [if_neg hTne, if_neg hHne]
        simp only [hm, Option.getD_some, hp]
      have hfilter : (uniqueDatesAsc hist).filter (fun d => decide (d < m)) = [] := by
        unfold _pick_prev_date at hp
        exact listMax?_eq_none_iff.mp hp
      have hnone : ∀ d ∈ hist.map (·.date), ¬ d < m := by
        intro d hd hlt
        have hmem : d ∈ (uniqueDatesAsc hist).filter (fun d => decide (d < m)) :=
          List.mem_filter.mpr ⟨mem_uniqueDatesAsc.mpr hd, decide_eq_true hlt⟩
        rw [hfilter] at hmem
        exact List.not_mem_nil d hmem
      refine ⟨⟨fun _ => hnone, fun _ => hE⟩, ?_, Or.inr hE⟩
      intro td' pd ds h
      rw [hE] at h
      exact absurd h (by simp)
  | some pd =>
      have hE : compute_latest_daily_deltas histSrc todaySrc =
          .ok (m, pd, ((outerJoinZero (_agg_by_product (dayRows hist m))
            (_agg_by_product (dayRows hist pd))).map buildDelta).insertionSort deltaGE) := by
        unfold compute_latest_daily_deltas
        rw [hH, hT]
        simp only []
        rw [if_neg hTne, if_neg hHne]
        simp only [hm, Option.getD_some, hp]
      have hpdmem : pd ∈ (uniqueDatesAsc hist).filter (fun d => decide (d < m)) := by
        unfold _pick_prev_date at hp
        exact listMax?_mem hp
      have hpd1 : pd ∈ hist.map (·.date) :=
        mem_uniqueDatesAsc.mp (List.mem_filter.mp hpdmem).1
      have hpd2 : pd < m := of_decide_eq_true (List.mem_filter.mp hpdmem).2
      have hpdmax : ∀ d ∈ hist.map (·.date), d < m → d ≤ pd := by
        intro d hd hlt
        unfold _pick_prev_date at hp
        exact listMax?_ge hp d
          (List.mem_filter.mpr ⟨mem_uniqueDatesAsc.mpr hd, decide_eq_true hlt⟩)
      refine ⟨⟨?_, ?_⟩, ?_, Or.inl ⟨pd, _, hE⟩⟩
      · intro h
        rw [hE] at h
        exact absurd h (by simp)
      · intro hall
        exact absurd hpd2 (hall pd hpd1)
      · intro td' pd' ds h
        rw [hE] at h
        injection h with h
        injection h with h1 h2
        injection h2 with h2 h3
        exact ⟨h1.symm, h2 ▸ hpd1, h2 ▸ hpd2, h2 ▸ hpdmax⟩

/-- C3 witness: with the sample ledger (dates 3, 5, 6, 10) and the date-6
batch, the anchor is 6 and there is a largest earlier ledger date. -/
theorem daily_dates_and_no_prior_witness :
    ∃ td, td ∈ [x6Row].map (·.date) ∧ (∀ d ∈ [x6Row].map (·.date), d ≤ td) ∧
      (compute_latest_daily_deltas sampleHistSrc sampleTodaySrc = .error .noPriorDate ↔
        ∀ d ∈ [y3Row, x5Row, y6Row, x10Row].map (·.date), ¬ d < td) ∧
      (∀ td' pd ds,
        compute_latest_daily_deltas sampleHistSrc sampleTodaySrc = .ok (td', pd, ds) →
        td' = td ∧ pd ∈ [y3Row, x5Row, y6Row, x10Row].map (·.date) ∧ pd < td ∧
          ∀ d ∈ [y3Row, x5Row, y6Row, x10Row].map (·.date), d < td → d ≤ pd) ∧
      ((∃ pd ds, compute_latest_daily_deltas sampleHistSrc sampleTodaySrc = .ok (td, pd, ds)) ∨
        compute_latest_daily_deltas sampleHistSrc sampleTodaySrc = .error .noPriorDate) :=
  daily_dates_and_no_prior sampleHistSrc sampleTodaySrc [y3Row, x5Row, y6Row, x10Row] [x6Row]
    (by decide) (by decide) (by decide) (by decide)

/-- Group keys are exactly the product names occurring in the rows. -/
theorem mem_groupKeys {l : List Row} {q : String} :
    q ∈ groupKeys l ↔ q ∈ l.map (·.product_name) := by
  unfold groupKeys
  rw [List.mem_insertionSort, List.mem_dedup]

/-- The aggregate frame's name column is the (deduplicated, sorted) key list. -/
theorem agg_names (l : List Row) :
    (_agg_by_product l).map (·.product_name) = groupKeys l := by
  unfold _agg_by_product
  rw [List.map_map]
  refine (List.map_congr_left ?_).trans (List.map_id _)
  intro q _
  rfl

/-- Outer-join keys are the union of both sides' name columns. -/
theorem mem_outerKeys {t p : List ProductAgg} {q : String} :
    q ∈ outerKeys t p ↔ q ∈ t.map (·.product_name) ∨ q ∈ p.map (·.product_name) := by
  unfold outerKeys
  rw [List.mem_insertionSort, List.mem_dedup, List.mem_append]

/-- The outer-join key list has no duplicates. -/
theorem outerKeys_nodup (t p : List ProductAgg) : (outerKeys t p).Nodup := by
  unfold outerKeys
  exact ((List.perm_insertionSort _ _).nodup_iff).mpr (List.nodup_dedup _)

/-- The looked-up-or-zero aggregate of a key carries that key as its name. -/
theorem findAgg_getD_name (t : List ProductAgg) (k : String) :
    ((findAgg t k).getD (zeroAgg k)).product_name = k := by
  cases hf : findAgg t k with
  | none => rfl
  | some a =>
      unfold findAgg at hf
      have hpa := List.find?_some hf
      simpa using hpa

/-- A key absent from a side's name column has no row on that side. -/
theorem findAgg_eq_none_of_not_mem {t : List ProductAgg} {k : String}
    (h : k ∉ t.map (·.product_name)) : findAgg t k = none := by
  cases hf : findAgg t k with
  | none => rfl
  | some a =>
      unfold findAgg at hf
      have hpa := List.find?_some hf
      exact absurd
        (List.mem_map.mpr ⟨a, List.mem_of_find?_eq_some hf, by simpa using hpa⟩) h

/-- Every merged daily row comes from an outer-join key. -/
theorem mem_outer_delta {t p : List ProductAgg} {d : ProductDelta}
    (hd : d ∈ (outerJoinZero t p).map buildDelta) :
    ∃ k, k ∈ outerKeys t p ∧
      d = buildDelta ((findAgg t k).getD (zeroAgg k), (findAgg p k).getD (zeroAgg k)) := by
  unfold outerJoinZero at hd
  rw [List.map_map] at hd
  rcases List.mem_map.mp hd with ⟨k, hk, hkd⟩
  exact ⟨k, hk, hkd.symm⟩

/-- Every merged weekly row comes from an outer-join key. -/
theorem mem_outer_weekly {t p : List ProductAgg} {row : WeeklyRow}
    (hd : row ∈ (outerJoinZero t p).map buildWeeklyRow) :
    ∃ k, k ∈ outerKeys t p ∧
      row = buildWeeklyRow ((findAgg t k).getD (zeroAgg k), (findAgg p k).getD (zeroAgg k)) := by
  unfold outerJoinZero at hd
  rw [List.map_map] at hd
  rcases List.mem_map.mp hd with ⟨k, hk, hkd⟩
  exact ⟨k, hk, hkd.symm⟩

/-- The daily merged rows' name column is the outer-join key list. -/
theorem outer_delta_names (t p : List ProductAgg) :
    ((outerJoinZero t p).map buildDelta).map (·.product_name) = outerKeys t p := by
  unfold outerJoinZero
  rw [List.map_map, List.map_map]
  refine (List.map_congr_left ?_).trans (List.map_id _)
  intro k _
  show ((findAgg t k).getD (zeroAgg k)).product_name = k
  exact findAgg_getD_name t k

/-- The weekly merged rows' name column is the outer-join key list. -/
theorem outer_weekly_names (t p : List ProductAgg) :
    ((outerJoinZero t p).map buildWeeklyRow).map (·.product_name) = outerKeys t p := by
  unfold outerJoinZero
  rw [List.map_map, List.map_map]
  refine (List.map_congr_left ?_).trans (List.map_id _)
  intro k _
  show ((findAgg t k).getD (zeroAgg k)).product_name = k
  exact findAgg_getD_name t k

/-- Inversion of a successful `compute_latest_daily_deltas` run. -/
theorem daily_ok_elim {histSrc todaySrc : CsvData} {td pd : Int} {ds : List ProductDelta}
    (h : compute_latest_daily_deltas histSrc todaySrc = .ok (td, pd, ds)) :
    ∃ hist today, load_csv histSrc = .ok hist ∧ load_csv todaySrc = .ok today ∧
      ds = ((outerJoinZero (_agg_by_product (dayRows hist td))
        (_agg_by_product (dayRows hist pd))).map buildDelta).insertionSort deltaGE := by
  unfold compute_latest_daily_deltas at h
  cases hh : load_csv histSrc with
  | error e => rw [hh] at h; simp at h
  | ok hist =>
      rw [hh] at h
      cases ht : load_csv todaySrc with
      | error e => rw [ht] at h; simp at h
      | ok today =>
          rw [ht] at h
          simp only [] at h
          refine ⟨hist, today, rfl, rfl, ?_⟩
          by_cases hTne : today = []
          · rw [if_pos hTne] at h; exact absurd h (by simp)
          · rw [if_neg hTne] at h
            by_cases hHne : hist = []
            · rw [if_pos hHne] at h; exact absurd h (by simp)
            · rw [if_neg hHne] at h
              cases hp : _pick_prev_date (uniqueDatesAsc hist)
                  ((listMax? (today.map (·.date))).getD 0) with
              | none => rw [hp] at h; exact absurd h (by simp)
              | some pd' =>
                  rw [hp] at h
                  simp only [] at h
                  injection h with h
                  injection h with h1 h2
                  injection h2 with h2 h3
                  subst h1
                  subst h2
                  exact h3.symm

/-- Inversion of a weekly run that produced a result. -/
theorem weekly_some_elim {histSrc : CsvData} {D : Int} {w : WeeklyDelta}
    (h : compute_weekly_deltas_for_monday histSrc D = .ok (some w)) :
    ∃ hist, load_csv histSrc = .ok hist ∧ weekday D = 6 ∧ hist ≠ [] ∧
      windowRows hist (D - 6) D ≠ [] ∧ windowRows hist (D - 6 - 1 - 6) (D - 6 - 1) ≠ [] ∧
      w = { week1_start := D - 6, week1_end := D, week2_start := D - 6 - 1 - 6,
            week2_end := D - 6 - 1,
            by_product := ((outerJoinZero (_agg_by_product (windowRows hist (D - 6) D))
              (_agg_by_product (windowRows hist (D - 6 - 1 - 6) (D - 6 - 1)))).map
                buildWeeklyRow).insertionSort weeklyGE } := by
  unfold compute_weekly_deltas_for_monday at h
  by_cases hwd : weekday D ≠ 6
  · rw [if_pos hwd] at h
    exact absurd (Except.ok.inj h) (by simp)
  · rw [if_neg hwd] at h
    have hwd6 : weekday D = 6 := Decidable.not_not.mp hwd
    cases hh : load_csv histSrc with
    | error e => rw [hh] at h; simp at h
    | ok hist =>
        rw [hh] at h
        simp only [] at h
        by_cases hne : hist = []
        · rw [if_pos hne] at h
          exact absurd (Except.ok.inj h) (by simp)
        · rw [if_neg hne] at h
          by_cases hw12 : windowRows hist (D - 6) D = [] ∨
              windowRows hist (D - 6 - 1 - 6) (D - 6 - 1) = []
          · rw [if_pos hw12] at h
            exact absurd (Except.ok.inj h) (by simp)
          · rw [if_neg hw12] at h
            push_neg at hw12
            exact ⟨hist, rfl, hwd6, hne, hw12.1, hw12.2,
              (Option.some.inj (Except.ok.inj h)).symm⟩

/-- Core outer-join properties of the merged, ranked daily delta list. -/
theorem daily_join_core (A B : List Row) (ds : List ProductDelta)
    (hds : ds = ((outerJoinZero (_agg_by_product A) (_agg_by_product B)).map
      buildDelta).insertionSort deltaGE) :
    (∀ q : String, q ∈ ds.map (·.product_name) ↔
      (q ∈ A.map (·.product_name) ∨ q ∈ B.map (·.product_name))) ∧
    (∀ q ∈ ds.map (·.product_name), (ds.map (·.product_name)).count q = 1) ∧
    (∀ d ∈ ds, d.product_name ∉ B.map (·.product_name) →
      d.cost_prev = 0 ∧ d.revenue_prev = 0 ∧ d.conv_prev = 0 ∧ d.roas_prev = 0) ∧
    (∀ d ∈ ds, d.product_name ∉ A.map (·.product_name) →
      d.cost_today = 0 ∧ d.revenue_today = 0 ∧ d.conv_today = 0 ∧ d.roas_today = 0) := by
  subst hds
  have hperm : List.Perm
      ((((outerJoinZero (_agg_by_product A) (_agg_by_product B)).map
        buildDelta).insertionSort deltaGE).map (·.product_name))
      (outerKeys (_agg_by_product A) (_agg_by_product B)) := by
    rw [← outer_delta_names (_agg_by_product A) (_agg_by_product B)]
    exact (List.perm_insertionSort deltaGE _).map _
  have hmem : ∀ q : String,
      q ∈ (((outerJoinZero (_agg_by_product A) (_agg_by_product B)).map
        buildDelta).insertionSort deltaGE).map (·.product_name) ↔
      (q ∈ A.map (·.product_name) ∨ q ∈ B.map (·.product_name)) := by
    intro q
    rw [hperm.mem_iff, mem_outerKeys, agg_names, agg_names, mem_groupKeys, mem_groupKeys]
  refine ⟨hmem, ?_, ?_, ?_⟩
  · intro q hq
    rw [hperm.count_eq]
    exact List.count_eq_one_of_mem
      (outerKeys_nodup (_agg_by_product A) (_agg_by_product B)) (hperm.mem_iff.mp hq)
  · intro d hd hnot
    rw [List.mem_insertionSort] at hd
    obtain ⟨k, hk, rfl⟩ := mem_outer_delta hd
    have hkname : (buildDelta ((findAgg (_agg_by_product A) k).getD (zeroAgg k),
        (findAgg (_agg_by_product B) k).getD (zeroAgg k))).product_name = k :=
      findAgg_getD_name (_agg_by_product A) k
    rw [hkname] at hnot
    have hnone : findAgg (_agg_by_product B) k = none := by
      apply findAgg_eq_none_of_not_mem
      rw [agg_names, mem_groupKeys]
      exact hnot
    unfold buildDelta
    rw [hnone]
    exact ⟨rfl, rfl, rfl, rfl⟩
  · intro d hd hnot
    rw [List.mem_insertionSort] at hd
    obtain ⟨k, hk, rfl⟩ := mem_outer_delta hd
    have hkname : (buildDelta ((findAgg (_agg_by_product A) k).getD (zeroAgg k),
        (findAgg (_agg_by_product B) k).getD (zeroAgg k))).product_name = k :=
      findAgg_getD_name (_agg_by_product A) k
    rw [hkname] at hnot
    have hnone : findAgg (_agg_by_product A) k = none := by
      apply findAgg_eq_none_of_not_mem
      rw [agg_names, mem_groupKeys]
      exact hnot
    unfold buildDelta
    rw [hnone]
    exact ⟨rfl, rfl, rfl, rfl⟩

/-- Core outer-join properties of the merged, ranked weekly table. -/
theorem weekly_join_core (A B : List Row) (rows : List WeeklyRow)
    (hrows : rows = ((outerJoinZero (_agg_by_product A) (_agg_by_product B)).map
      buildWeeklyRow).insertionSort weeklyGE) :
    (∀ q : String, q ∈ rows.map (·.product_name) ↔
      (q ∈ A.map (·.product_name) ∨ q ∈ B.map (·.product_name))) ∧
    (∀ q ∈ rows.map (·.product_name), (rows.map (·.product_name)).count q = 1) ∧
    (∀ row ∈ rows, row.product_name ∉ B.map (·.product_name) →
      row.cost_w2 = 0 ∧ row.revenue_w2 = 0 ∧ row.conv_w2 = 0 ∧ row.roas_w2 = 0) ∧
    (∀ row ∈ rows, row.product_name ∉ A.map (·.product_name) →
      row.cost_w1 = 0 ∧ row.revenue_w1 = 0 ∧ row.conv_w1 = 0 ∧ row.roas_w1 = 0) := by
  subst hrows
  have hperm : List.Perm
      ((((outerJoinZero (_agg_by_product A) (_agg_by_product B)).map
        buildWeeklyRow).insertionSort weeklyGE).map (·.product_name))
      (outerKeys (_agg_by_product A) (_agg_by_product B)) := by
    rw [← outer_weekly_names (_agg_by_product A) (_agg_by_product B)]
    exact (List.perm_insertionSort weeklyGE _).map _
  have hmem : ∀ q : String,
      q ∈ (((outerJoinZero (_agg_by_product A) (_agg_by_product B)).map
        buildWeeklyRow).insertionSort weeklyGE).map (·.product_name) ↔
      (q ∈ A.map (·.product_name) ∨ q ∈ B.map (·.product_name)) := by
    intro q
    rw [hperm.mem_iff, mem_outerKeys, agg_names, agg_names, mem_groupKeys, mem_groupKeys]
  refine ⟨hmem, ?_, ?_, ?_⟩
  · intro q hq
    rw [hperm.count_eq]
    exact List.count_eq_one_of_mem
      (outerKeys_nodup (_agg_by_product A) (_agg_by_product B)) (hperm.mem_iff.mp hq)
  · intro row hrow hnot
    rw [List.mem_insertionSort] at hrow
    obtain ⟨k, hk, rfl⟩ := mem_outer_weekly hrow
    have hkname : (buildWeeklyRow ((findAgg (_agg_by_product A) k).getD (zeroAgg k),
        (findAgg (_agg_by_product B) k).getD (zeroAgg k))).product_name = k :=
      findAgg_getD_name (_agg_by_product A) k
    rw [hkname] at hnot
    have hnone : findAgg (_agg_by_product B) k = none := by
      apply findAgg_eq_none_of_not_mem
      rw [agg_names, mem_groupKeys]
      exact hnot
    unfold buildWeeklyRow
    rw [hnone]
    exact ⟨rfl, rfl, rfl, rfl⟩
  · intro row hrow hnot
    rw [List.mem_insertionSort] at hrow
    obtain ⟨k, hk, rfl⟩ := mem_outer_weekly hrow
    have hkname : (buildWeeklyRow ((findAgg (_agg_by_product A) k).getD (zeroAgg k),
        (findAgg (_agg_by_product B) k).getD (zeroAgg k))).product_name = k :=
      findAgg_getD_name (_agg_by_product A) k
    rw [hkname] at hnot
    have hnone : findAgg (_agg_by_product A) k = none := by
      apply findAgg_eq_none_of_not_mem
      rw [agg_names, mem_groupKeys]
      exact hnot
    unfold buildWeeklyRow
    rw [hnone]
    exact ⟨rfl, rfl, rfl, rfl⟩

/-- C4: in both delta computations the two per-product aggregate sets are
outer-joined on product name — every product of either period appears exactly
once, and a product absent from one period gets cost, revenue, conversions and
ROAS all exactly 0 for that period. -/
theorem outer_join_once_and_zero_fill :
    (∀ histSrc todaySrc hist td pd ds, load_csv histSrc = .ok hist →
      compute_latest_daily_deltas histSrc todaySrc = .ok (td, pd, ds) →
      (∀ q : String, q ∈ ds.map (·.product_name) ↔
        (q ∈ (dayRows hist td).map (·.product_name) ∨
          q ∈ (dayRows hist pd).map (·.product_name))) ∧
      (∀ q ∈ ds.map (·.product_name), (ds.map (·.product_name)).count q = 1) ∧
      (∀ d ∈ ds, d.product_name ∉ (dayRows hist pd).map (·.product_name) →
        d.cost_prev = 0 ∧ d.revenue_prev = 0 ∧ d.conv_prev = 0 ∧ d.roas_prev = 0) ∧
      (∀ d ∈ ds, d.product_name ∉ (dayRows hist td).map (·.product_name) →
        d.cost_today = 0 ∧ d.revenue_today = 0 ∧ d.conv_today = 0 ∧ d.roas_today = 0)) ∧
    (∀ histSrc D hist w, load_csv histSrc = .ok hist →
      compute_weekly_deltas_for_monday histSrc D = .ok (some w) →
      (∀ q : String, q ∈ w.by_product.map (·.product_name) ↔
        (q ∈ (windowRows hist (D - 6) D).map (·.product_name) ∨
          q ∈ (windowRows hist (D - 13) (D - 7)).map (·.product_name))) ∧
      (∀ q ∈ w.by_product.map (·.product_name),
        (w.by_product.map (·.product_name)).count q = 1) ∧
      (∀ row ∈ w.by_product,
        row.product_name ∉ (windowRows hist (D - 13) (D - 7)).map (·.product_name) →
        row.cost_w2 = 0 ∧ row.revenue_w2 = 0 ∧ row.conv_w2 = 0 ∧ row.roas_w2 = 0) ∧
      (∀ row ∈ w.by_product,
        row.product_name ∉ (windowRows hist (D - 6) D).map (·.product_name) →
        row.cost_w1 = 0 ∧ row.revenue_w1 = 0 ∧ row.conv_w1 = 0 ∧ row.roas_w1 = 0)) := by
  constructor
  · intro histSrc todaySrc hist td pd ds hH hE
    obtain ⟨hist', today, hH', hT', hds⟩ := daily_ok_elim hE
    rw [hH] at hH'
    have hh : hist' = hist := (Except.ok.inj hH').symm
    subst hist'
    exact daily_join_core (dayRows hist td) (dayRows hist pd) ds hds
  · intro histSrc D hist w hH hE
    obtain ⟨hist', hH', hwd, hne, hw1, hw2, hw⟩ := weekly_some_elim hE
    rw [hH] at hH'
    have hh : hist' = hist := (Except.ok.inj hH').symm
    subst hist'
    have hby : w.by_product = ((outerJoinZero (_agg_by_product (windowRows hist (D - 6) D))
        (_agg_by_product (windowRows hist (D - 13) (D - 7)))).map
          buildWeeklyRow).insertionSort weeklyGE := by
      rw [hw]
      rw [show D - 6 - 1 - 6 = D - 13 from by omega, show D - 6 - 1 = D - 7 from by omega]
    exact weekly_join_core (windowRows hist (D - 6) D) (windowRows hist (D - 13) (D - 7))
      w.by_product hby

/-- C5: both ranked outputs are ordered by non-increasing absolute
ROAS-percentage-point difference. -/
theorem ranked_by_abs_roas_desc :
    (∀ histSrc todaySrc td pd ds,
      compute_latest_daily_deltas histSrc todaySrc = .ok (td, pd, ds) →
      ds.Sorted fun a b => |b.roas_diff| ≤ |a.roas_diff|) ∧
    (∀ histSrc D w, compute_weekly_deltas_for_monday histSrc D = .ok (some w) →
      w.by_product.Sorted fun a b => |b.roas_diff| ≤ |a.roas_diff|) := by
  constructor
  · intro histSrc todaySrc td pd ds hE
    obtain ⟨hist, today, _, _, hds⟩ := daily_ok_elim hE
    rw [hds]
    exact List.sorted_insertionSort deltaGE _
  · intro histSrc D w hE
    obtain ⟨hist, _, _, _, _, _, hw⟩ := weekly_some_elim hE
    rw [hw]
    exact List.sorted_insertionSort weeklyGE _

/-- C6: the weekly comparison only yields a result on the designated
end-of-week weekday (Sunday); any other weekday, an empty ledger, or an empty
window yields absent without an error, and a produced result carries the
windows week1 = [D-6, D] and week2 = [D-13, D-7]. -/
theorem weekly_sunday_gate (histSrc : CsvData) (D : Int) :
    (weekday D ≠ 6 → compute_weekly_deltas_for_monday histSrc D = .ok none) ∧
    (∀ hist, load_csv histSrc = .ok hist →
      (hist = [] ∨ windowRows hist (D - 6) D = [] ∨ windowRows hist (D - 13) (D - 7) = []) →
      compute_weekly_deltas_for_monday histSrc D = .ok none) ∧
    (∀ w, compute_weekly_deltas_for_monday histSrc D = .ok (some w) →
      weekday D = 6 ∧ w.week1_start = D - 6 ∧ w.week1_end = D ∧
        w.week2_start = D - 13 ∧ w.week2_end = D - 7 ∧
        ∀ hist, load_csv histSrc = .ok hist →
          windowRows hist (D - 6) D ≠ [] ∧ windowRows hist (D - 13) (D - 7) ≠ []) := by
  refine ⟨?_, ?_, ?_⟩
  · intro hwd
    unfold compute_weekly_deltas_for_monday
    rw [if_pos hwd]
  · intro hist hload hcases
    unfold compute_weekly_deltas_for_monday
    by_cases hwd : weekday D ≠ 6
    · rw [if_pos hwd]
    · rw [if_neg hwd, hload]
      simp only []
      rcases hcases with hnil | hw
      · rw [if_pos hnil]
      · by_cases hnil : hist = []
        · rw [if_pos hnil]
        · rw [if_neg hnil]
          have hcond : windowRows hist (D - 6) D = [] ∨
              windowRows hist (D - 6 - 1 - 6) (D - 6 - 1) = [] := by
            rw [show D - 6 - 1 - 6 = D - 13 from by omega,
              show D - 6 - 1 = D - 7 from by omega]
            exact hw
          rw [if_pos hcond]
  · intro w hE
    obtain ⟨hist, hload, hwd, hne, hw1, hw2, hw⟩ := weekly_some_elim hE
    refine ⟨hwd, by rw [hw], by rw [hw], ?_, ?_, ?_⟩
    · rw [hw]
      show D - 6 - 1 - 6 = D - 13
      omega
    · rw [hw]
      show D - 6 - 1 = D - 7
      omega
    · intro hist' hload'
      rw [hload] at hload'
      have hh : hist' = hist := (Except.ok.inj hload').symm
      subst hist'
      refine ⟨hw1, ?_⟩
      rw [show D - 13 = D - 6 - 1 - 6 from by omega, show D - 7 = D - 6 - 1 from by omega]
      exact hw2

/-- Evaluation of the daily computation on the sample ledger and batch. -/
theorem daily_eval_sample :
    compute_latest_daily_deltas histW sampleTodaySrc = .ok (6, 5, dsW) := by
  have hload : load_csv histW = .ok [x5Row, x6Row] := by decide
  have hloadT : load_csv sampleTodaySrc = .ok [x6Row] := by decide
  unfold compute_latest_daily_deltas
  rw [hload, hloadT]
  simp only []
  rw [if_neg (by decide : ¬ ([x6Row] : List Row) = []),
    if_neg (by decide : ¬ ([x5Row, x6Row] : List Row) = [])]
  rw [show listMax? ([x6Row].map (·.date)) = some 6 from by decide]
  simp only [Option.getD_some]
  rw [show _pick_prev_date (uniqueDatesAsc [x5Row, x6Row]) 6 = some 5 from by decide]
  rfl

/-- Evaluation of the weekly computation on the sample ledger at Sunday 14. -/
theorem weekly_eval_sample :
    compute_weekly_deltas_for_monday histWeek 14 = .ok (some wW) := by
  have hload : load_csv histWeek = .ok [x5Row, x10Row] := by decide
  unfold compute_weekly_deltas_for_monday
  rw [if_neg (by decide : ¬ weekday 14 ≠ 6), hload]
  simp only []
  rw [if_neg (by decide : ¬ ([x5Row, x10Row] : List Row) = [])]
  rw [if_neg (by decide : ¬ (windowRows [x5Row, x10Row] (14 - 6) 14 = [] ∨
    windowRows [x5Row, x10Row] (14 - 6 - 1 - 6) (14 - 6 - 1) = []))]
  rfl

/-- C4 witness: in the sample daily and weekly runs, product "x" (present in
both periods) appears exactly once in each merged table. -/
theorem outer_join_once_and_zero_fill_witness :
    ("x" ∈ dsW.map (·.product_name) ∧ (dsW.map (·.product_name)).count ("x") = 1) ∧
    ("x" ∈ wW.by_product.map (·.product_name) ∧
      (wW.by_product.map (·.product_name)).count ("x") = 1) := by
  have hd := (outer_join_once_and_zero_fill.1 histW sampleTodaySrc [x5Row, x6Row] 6 5 dsW
    (by decide) daily_eval_sample).2.1
  have hwk := (outer_join_once_and_zero_fill.2 histWeek 14 [x5Row, x10Row] wW
    (by decide) weekly_eval_sample).2.1
  exact ⟨⟨by decide, hd ("x") (by decide)⟩, ⟨by decide, hwk ("x") (by decide)⟩⟩

/-- C5 witness: the sample ranked outputs are sorted by descending absolute
ROAS change. -/
theorem ranked_by_abs_roas_desc_witness :
    List.Sorted deltaGE dsW ∧ List.Sorted weeklyGE wW.by_product :=
  ⟨ranked_by_abs_roas_desc.1 histW sampleTodaySrc 6 5 dsW daily_eval_sample,
   ranked_by_abs_roas_desc.2 histWeek 14 wW weekly_eval_sample⟩

/-- C6 witness: ordinal 15 (a Monday) yields no weekly result, and the Sunday
14 run carries the windows [8, 14] and [1, 7]. -/
theorem weekly_sunday_gate_witness :
    (weekday 15 ≠ 6 ∧ compute_weekly_deltas_for_monday sampleHistSrc 15 = .ok none) ∧
    (weekday 14 = 6 ∧ wW.week1_start = 14 - 6 ∧ wW.week2_start = 14 - 13) := by
  have h := (weekly_sunday_gate histWeek 14).2.2 wW weekly_eval_sample
  exact ⟨⟨by decide, (weekly_sunday_gate sampleHistSrc 15).1 (by decide)⟩,
    h.1, h.2.1, h.2.2.2.1⟩
